import Mathlib

/-!
Verification of the Workload Management System (src/app.py): a shallow
embedding of its SQLite data model and domain operations, of the SHA-256
password hashing it performs via hashlib, and of the advisory LLM wrapper
functions, together with theorems settling the specification claims.
-/

set_option maxRecDepth 4000

namespace Workload

/-! ## SHA-256 (hashlib.sha256(·).hexdigest())

Faithful implementation over `Nat`, with 32-bit words represented as
naturals reduced mod `2 ^ 32`.  Strings are encoded to UTF-8 bytes as
Python's `str.encode()` does. -/

def M32 : Nat := 4294967296

/-- Right rotation of a 32-bit word held in a `Nat`. -/
def rotr (r x : Nat) : Nat := ((x >>> r) ||| (x <<< (32 - r))) % M32

/-- UTF-8 encoding of a single character, as a list of byte values. -/
def encodeChar (c : Char) : List Nat :=
  let n := c.toNat
  if n < 128 then [n]
  else if n < 2048 then
    [192 ||| (n >>> 6), 128 ||| (n &&& 63)]
  else if n < 65536 then
    [224 ||| (n >>> 12), 128 ||| ((n >>> 6) &&& 63), 128 ||| (n &&& 63)]
  else
    [240 ||| (n >>> 18), 128 ||| ((n >>> 12) &&& 63),
     128 ||| ((n >>> 6) &&& 63), 128 ||| (n &&& 63)]

/-- UTF-8 byte sequence of a string (Python `s.encode()`). -/
def utf8Bytes (s : String) : List Nat :=
  (s.data.map encodeChar).foldr (· ++ ·) []

/-- SHA-256 round constants (FIPS 180-4), written in decimal. -/
def K : List Nat :=
  [1116352408, 1899447441, 3049323471, 3921009573, 961987163, 1508970993,
   2453635748, 2870763221, 3624381080, 310598401, 607225278, 1426881987,
   1925078388, 2162078206, 2614888103, 3248222580, 3835390401, 4022224774,
   264347078, 604807628, 770255983, 1249150122, 1555081692, 1996064986,
   2554220882, 2821834349, 2952996808, 3210313671, 3336571891, 3584528711,
   113926993, 338241895, 666307205, 773529912, 1294757372, 1396182291,
   1695183700, 1986661051, 2177026350, 2456956037, 2730485921, 2820302411,
   3259730800, 3345764771, 3516065817, 3600352804, 4094571909, 275423344,
   430227734, 506948616, 659060556, 883997877, 958139571, 1322822218,
   1537002063, 1747873779, 1955562222, 2024104815, 2227730452, 2361852424,
   2428436474, 2756734187, 3204031479, 3329325298]

/-- SHA-256 working state: eight 32-bit words. -/
structure Hash8 where
  a : Nat
  b : Nat
  c : Nat
  d : Nat
  e : Nat
  f : Nat
  g : Nat
  h : Nat
  deriving Repr, DecidableEq

def initH : Hash8 :=
  ⟨1779033703, 3144134277, 1013904242, 2773480762,
   1359893119, 2600822924, 528734635, 1541459225⟩

/-- Pad a message (list of bytes) per SHA-256: append 0x80, zeros, and the
bit length as an 8-byte big-endian integer, to a multiple of 64 bytes. -/
def pad (msg : List Nat) : List Nat :=
  let l := msg.length
  let z := (120 - ((l + 1) % 64)) % 64
  msg ++ [128] ++ List.replicate z 0 ++
    ((List.range 8).map fun i => ((8 * l) >>> (56 - 8 * i)) &&& 255)

/-- Split a list into successive 64-byte chunks (fuel-driven so the kernel
can evaluate it; the fuel `l.length` always suffices). -/
def chunksAux : Nat → List Nat → List (List Nat)
  | 0, _ => []
  | fuel + 1, l => if l.isEmpty then [] else l.take 64 :: chunksAux fuel (l.drop 64)

def chunks64 (l : List Nat) : List (List Nat) := chunksAux l.length l

/-- The sixteen big-endian 32-bit words of a 64-byte chunk. -/
def toWords (chunk : List Nat) : Array Nat :=
  Array.mk ((List.range 16).map fun i =>
    chunk.getD (4 * i) 0 * 16777216 + chunk.getD (4 * i + 1) 0 * 65536 +
    chunk.getD (4 * i + 2) 0 * 256 + chunk.getD (4 * i + 3) 0)

/-- One schedule-extension step: append word `w[i]` for the next `i ≥ 16`. -/
def extendStep (ws : Array Nat) : Array Nat :=
  let w15 := ws.getD (ws.size - 15) 0
  let w2 := ws.getD (ws.size - 2) 0
  let s0 := rotr 7 w15 ^^^ rotr 18 w15 ^^^ (w15 >>> 3)
  let s1 := rotr 17 w2 ^^^ rotr 19 w2 ^^^ (w2 >>> 10)
  ws.push ((ws.getD (ws.size - 16) 0 + s0 + ws.getD (ws.size - 7) 0 + s1) % M32)

def buildW (ws : Array Nat) : Nat → Array Nat
  | 0 => ws
  | n + 1 => buildW (extendStep ws) n

/-- One SHA-256 compression round, consuming a `(k, w)` pair. -/
def round (st : Hash8) (kw : Nat × Nat) : Hash8 :=
  let S1 := rotr 6 st.e ^^^ rotr 11 st.e ^^^ rotr 25 st.e
  let ch := (st.e &&& st.f) ^^^ ((st.e ^^^ (M32 - 1)) &&& st.g)
  let t1 := (st.h + S1 + ch + kw.1 + kw.2) % M32
  let S0 := rotr 2 st.a ^^^ rotr 13 st.a ^^^ rotr 22 st.a
  let maj := (st.a &&& st.b) ^^^ (st.a &&& st.c) ^^^ (st.b &&& st.c)
  let t2 := (S0 + maj) % M32
  ⟨(t1 + t2) % M32, st.a, st.b, st.c, (st.d + t1) % M32, st.e, st.f, st.g⟩

/-- Compress one 64-byte chunk into the running hash state. -/
def processChunk (hs : Hash8) (chunk : List Nat) : Hash8 :=
  let w := buildW (toWords chunk) 48
  let st := (K.zip w.toList).foldl round hs
  ⟨(hs.a + st.a) % M32, (hs.b + st.b) % M32, (hs.c + st.c) % M32,
   (hs.d + st.d) % M32, (hs.e + st.e) % M32, (hs.f + st.f) % M32,
   (hs.g + st.g) % M32, (hs.h + st.h) % M32⟩

def hexChar (n : Nat) : Char :=
  if n < 10 then Char.ofNat (48 + n) else Char.ofNat (87 + n)

/-- Lowercase 8-hex-digit rendering of a 32-bit word. -/
def wordHex (n : Nat) : String :=
  String.mk ((List.range 8).map fun i => hexChar ((n >>> (28 - 4 * i)) &&& 15))

/-- `hashlib.sha256(s.encode()).hexdigest()`. -/
def sha256hex (s : String) : String :=
  let hs := (chunks64 (pad (utf8Bytes s))).foldl processChunk initH
  wordHex hs.a ++ wordHex hs.b ++ wordHex hs.c ++ wordHex hs.d ++
    wordHex hs.e ++ wordHex hs.f ++ wordHex hs.g ++ wordHex hs.h

/-! ## Data model

The two SQLite tables created by `setup_database`, as lists of rows.
`AUTOINCREMENT` primary keys are modelled by per-table counters: a freshly
inserted row receives the counter's value and the counter increments.
`orders.assigned_to` is nullable (`Option String`); `orders.status` has SQL
default `'WIP'`. -/

structure StaffRow where
  id : Nat
  name : String
  password : String
  groups : String
  deriving Repr, DecidableEq

structure OrderRow where
  id : Nat
  customer_name : String
  items : String
  assigned_to : Option String
  status : String
  deriving Repr, DecidableEq

structure DB where
  staff : List StaffRow
  orders : List OrderRow
  nextStaffId : Nat
  nextOrderId : Nat
  deriving Repr, DecidableEq

/-- The state after `setup_database` on a fresh file: both tables empty,
`AUTOINCREMENT` counters starting at 1. -/
def emptyDB : DB := ⟨[], [], 1, 1⟩

/-! ## Domain operations (src/app.py) -/

/-- `place_order(customer_name, items)`: INSERT INTO orders
(customer_name, items) VALUES (?, ?) with `",".join(items)`; the omitted
columns take their schema defaults: `assigned_to` NULL, `status` 'WIP'. -/
def place_order (db : DB) (customer_name : String) (items : List String) : DB :=
  { db with
    orders := db.orders ++
      [⟨db.nextOrderId, customer_name, String.intercalate "," items, none, "WIP"⟩],
    nextOrderId := db.nextOrderId + 1 }

/-- `authenticate(staff_name, staff_password)`: SELECT * FROM staff WHERE
name = ? AND password = ? against the SHA-256 hex digest of the supplied
password; `fetchone() is not None` means some row matches. -/
def authenticate (db : DB) (staff_name staff_password : String) : Bool :=
  let hashed_password := sha256hex staff_password
  db.staff.any fun s => s.name == staff_name && s.password == hashed_password

/-- `auto_assign_orders()`: the body is `pass` — no state change. -/
def auto_assign_orders (db : DB) : DB := db

/-- SQL equality of a nullable column against a bound string parameter:
`NULL = ?` is never TRUE, so a NULL `assigned_to` matches no name. -/
def sqlEq (v : Option String) (x : String) : Bool :=
  match v with
  | none => false
  | some s => s == x

/-- `get_staff_orders(staff_name)`: SELECT id, customer_name, items, status
FROM orders WHERE assigned_to = ?. -/
def get_staff_orders (db : DB) (staff_name : String) :
    List (Nat × String × String × String) :=
  (db.orders.filter fun o => sqlEq o.assigned_to staff_name).map fun o =>
    (o.id, o.customer_name, o.items, o.status)

/-- The row update performed by `complete_order` on a single order row. -/
def setCompleted (order_id : Nat) (o : OrderRow) : OrderRow :=
  if o.id = order_id then { o with status := "Completed" } else o

/-- `complete_order(order_id)`: UPDATE orders SET status = 'Completed'
WHERE id = ? — unconditional, touching every row whose id matches
(silently zero rows when none does). -/
def complete_order (db : DB) (order_id : Nat) : DB :=
  { db with orders := db.orders.map (setCompleted order_id) }

/-- `get_dashboard_data()`: SELECT id, assigned_to, status FROM orders,
one DataFrame row per order. -/
def get_dashboard_data (db : DB) : List (Nat × Option String × String) :=
  db.orders.map fun o => (o.id, o.assigned_to, o.status)

/-- `add_staff(name, password, groups)`: INSERT INTO staff (name, password,
groups) VALUES (?, ?, ?) after hashing the password with SHA-256. -/
def add_staff (db : DB) (name password groups : String) : DB :=
  { db with
    staff := db.staff ++ [⟨db.nextStaffId, name, sha256hex password, groups⟩],
    nextStaffId := db.nextStaffId + 1 }

/-- `edit_staff(name, groups)`: UPDATE staff SET groups = ? WHERE name = ?. -/
def edit_staff (db : DB) (name groups : String) : DB :=
  { db with
    staff := db.staff.map fun s =>
      if s.name = name then { s with groups := groups } else s }

/-- `delete_staff(name)`: DELETE FROM staff WHERE name = ?. -/
def delete_staff (db : DB) (name : String) : DB :=
  { db with staff := db.staff.filter fun s => !(s.name == name) }

/-- `get_all_staff()`: SELECT name, groups FROM staff. -/
def get_all_staff (db : DB) : List (String × String) :=
  db.staff.map fun s => (s.name, s.groups)

/-! ## Operations as a transition system

Every operation of src/app.py that touches the database, as a step on the
`DB` state.  The read-only operations (SELECT-only: `authenticate`,
`get_staff_orders`, `get_dashboard_data`, `get_all_staff`) leave the state
unchanged, as does the stubbed `auto_assign_orders`. -/

inductive Op where
  | placeOrder (customer_name : String) (items : List String)
  | completeOrder (order_id : Nat)
  | autoAssign
  | addStaff (name password groups : String)
  | editStaff (name groups : String)
  | deleteStaff (name : String)
  | readAuthenticate (name password : String)
  | readStaffOrders (name : String)
  | readDashboard
  | readAllStaff
  deriving Repr, DecidableEq

def applyOp (op : Op) (db : DB) : DB :=
  match op with
  | .placeOrder c its => place_order db c its
  | .completeOrder oid => complete_order db oid
  | .autoAssign => auto_assign_orders db
  | .addStaff n p g => add_staff db n p g
  | .editStaff n g => edit_staff db n g
  | .deleteStaff n => delete_staff db n
  | .readAuthenticate _ _ => db
  | .readStaffOrders _ => db
  | .readDashboard => db
  | .readAllStaff => db

/-- Database states reachable from the freshly set-up database via the
application's operations. -/
inductive Reachable : DB → Prop where
  | init : Reachable emptyDB
  | step {db : DB} (op : Op) : Reachable db → Reachable (applyOp op db)

/-! ## Advisory Assistant (Groq LLM wrappers)

The external chat model is a value with a `predict` method; `load_groq_model`
returns `None` when no credential is configured, modelled as `Option LLM`
being `none`. -/

structure LLM where
  predict : String → String

/-- `recommend_items(customer_name, current_items, groq_llm)`. -/
def recommend_items (customer_name : String) (current_items : List String)
    (groq_llm : Option LLM) : List String :=
  match groq_llm with
  | none => []
  | some llm =>
    let query :=
      "You are an expert in customer preferences.\n" ++
      "Given the customer name: " ++ customer_name ++ "\n" ++
      "And their current order: " ++ String.intercalate ", " current_items ++ "\n" ++
      "Suggest 2 complementary items they might like."
    ((llm.predict query).splitOn ",").map String.trim

/-- `smart_assign_staff(order_item, available_staff, groq_llm)`; the staff
dict is a list of (name, skills) pairs, and pending counts come from
`get_staff_orders`. -/
def smart_assign_staff (db : DB) (order_item : String)
    (available_staff : List (String × String)) (groq_llm : Option LLM) :
    Option String :=
  match groq_llm with
  | none => none
  | some llm =>
    if available_staff.isEmpty then none
    else
      let pending (name : String) : Nat :=
        ((get_staff_orders db name).filter fun r => r.2.2.2 == "WIP").length
      let staff_info := String.intercalate ", " (available_staff.map fun p =>
        p.1 ++ ": Skills(" ++ p.2 ++ "), Pending Orders(" ++
          toString (pending p.1) ++ ")")
      let query :=
        "You are an expert workload optimizer.\n" ++
        "Given the order item: " ++ order_item ++ "\n" ++
        "And available staff with their skill groups and pending orders: " ++
        staff_info ++ "\n" ++
        "Suggest only ONE best staff name to assign this order to, " ++
        "considering workload balance and skill matching."
      some (llm.predict query).trim

/-- `analyze_trends(df, groq_llm)`; `df` is the dashboard DataFrame. -/
def analyze_trends (df : List (Nat × Option String × String))
    (groq_llm : Option LLM) : String :=
  match groq_llm with
  | none => "No AI model available."
  | some llm =>
    let data_summary :=
      "Total Orders: " ++ toString df.length ++ ", " ++
      "In Progress: " ++ toString (df.filter fun r => r.2.2 == "WIP").length ++
      ", " ++
      "Completed: " ++ toString (df.filter fun r => r.2.2 == "Completed").length
    let query :=
      "You are an expert in analyzing workload trends.\n" ++
      "Given the following summary of orders: " ++ data_summary ++ "\n" ++
      "Provide insights into trends and predictions for future orders."
    llm.predict query

/-- `suggest_groups_for_staff(groq_llm)`. -/
def suggest_groups_for_staff (groq_llm : Option LLM) : List String :=
  match groq_llm with
  | none => []
  | some llm =>
    let query :=
      "You are an expert in workload optimization.\n" ++
      "Suggest 2 optimal skill groups for a new staff member based on " ++
      "current workload trends."
    ((llm.predict query).splitOn ",").map String.trim

/-- `staff_dashboard_message(staff_name, groq_llm, orders_pending)`. -/
def staff_dashboard_message (staff_name : String) (groq_llm : Option LLM)
    (orders_pending : List String) : String :=
  match groq_llm with
  | none => ""
  | some llm =>
    let query :=
      "You are an assistant helping " ++ staff_name ++ ".\n" ++
      "Summarize politely their pending orders list: " ++
      String.intercalate ", " orders_pending ++ "\n"
    llm.predict query

/-- Dropping the unassigned orders from the table (those with NULL
`assigned_to`), used to express that per-staff listings never see them. -/
def removeUnassigned (db : DB) : DB :=
  { db with orders := db.orders.filter fun o => o.assigned_to.isSome }

/-! ## Helper lemmas -/

theorem setCompleted_id (order_id : Nat) (o : OrderRow) :
    (setCompleted order_id o).id = o.id := by
  unfold setCompleted
  by_cases h : o.id = order_id <;> simp [h]

theorem setCompleted_idem (order_id : Nat) (o : OrderRow) :
    setCompleted order_id (setCompleted order_id o) = setCompleted order_id o := by
  unfold setCompleted
  by_cases h : o.id = order_id <;> simp [h]

theorem map_id_map_setCompleted (order_id : Nat) (l : List OrderRow) :
    (l.map (setCompleted order_id)).map OrderRow.id = l.map OrderRow.id := by
  induction l with
  | nil => rfl
  | cons o t ih => simp [setCompleted_id, ih]

theorem map_setCompleted_eq_self (order_id : Nat) (l : List OrderRow)
    (h : ∀ o ∈ l, o.id ≠ order_id) : l.map (setCompleted order_id) = l := by
  induction l with
  | nil => rfl
  | cons o t ih =>
    simp only [List.map_cons, List.cons.injEq]
    refine ⟨?_, ih fun q hq => h q (List.mem_cons_of_mem o hq)⟩
    unfold setCompleted
    simp [h o (List.mem_cons_self o t)]

/-! ## Theorems for the claims -/

/-- Sanity check against the published SHA-256 test vector for `"abc"`. -/
theorem sha256hex_abc :
    sha256hex "abc" =
      "ba7816bf8f01cfea414140de5dae2223b00361a396177a9cb410ff61f20015ad" := by
  decide

/-- Claim C1: for any valid pair with non-empty items, `place_order` adds
exactly one new order row — status `'WIP'`, `assigned_to` NULL, the given
customer name, items the comma-join of the input list — and changes no
other row (the staff table and all prior order rows are untouched). -/
theorem place_order_creates_single_wip (db : DB) (customer_name : String)
    (items : List String) (h : items ≠ []) :
    (place_order db customer_name items).orders =
      db.orders ++ [⟨db.nextOrderId, customer_name,
        String.intercalate "," items, none, "WIP"⟩] ∧
    (place_order db customer_name items).staff = db.staff :=
  ⟨rfl, rfl⟩

/-- Witness for C1 at a concrete order. -/
theorem place_order_creates_single_wip_witness :
    (["Veg Pizza", "Coke"] : List String) ≠ [] ∧
    ((place_order emptyDB "bob" ["Veg Pizza", "Coke"]).orders =
      emptyDB.orders ++ [⟨emptyDB.nextOrderId, "bob",
        String.intercalate "," ["Veg Pizza", "Coke"], none, "WIP"⟩] ∧
     (place_order emptyDB "bob" ["Veg Pizza", "Coke"]).staff = emptyDB.staff) :=
  ⟨by decide, place_order_creates_single_wip emptyDB "bob" ["Veg Pizza", "Coke"]
    (by decide)⟩

/-- Claim C3: `complete_order` is idempotent — a second call on the same id
produces the identical database state — and after one call every order row
carrying that id has status `'Completed'`; no error path exists in the
model. -/
theorem complete_order_idempotent_and_completed (db : DB) (order_id : Nat) :
    complete_order (complete_order db order_id) order_id =
      complete_order db order_id ∧
    ((complete_order db order_id).orders.all fun o =>
      !(o.id == order_id) || (o.status == "Completed")) = true := by
  constructor
  · simp only [complete_order, List.map_map]
    have hfun : setCompleted order_id ∘ setCompleted order_id =
        setCompleted order_id :=
      funext fun o => setCompleted_idem order_id o
    rw [hfun]
  · simp only [complete_order, List.all_map, List.all_eq_true, Function.comp]
    intro o _
    unfold setCompleted
    by_cases h : o.id = order_id <;> simp [h]

/-- Claim C7: `complete_order` on an id matching no existing order affects
zero rows and returns the state unchanged. -/
theorem complete_order_unknown_id_noop (db : DB) (order_id : Nat)
    (h : (db.orders.all fun o => !(o.id == order_id)) = true) :
    complete_order db order_id = db := by
  have horders : db.orders.map (setCompleted order_id) = db.orders := by
    apply map_setCompleted_eq_self
    intro o ho
    have := List.all_eq_true.mp h o ho
    simpa using this
  show ({ db with orders := db.orders.map (setCompleted order_id) } : DB) = db
  rw [horders]

/-- Witness for C7: completing order 7 in a database holding only order 1. -/
theorem complete_order_unknown_id_noop_witness :
    (((place_order emptyDB "bob" ["Coke"]).orders.all fun o =>
      !(o.id == 7)) = true) ∧
    complete_order (place_order emptyDB "bob" ["Coke"]) 7 =
      place_order emptyDB "bob" ["Coke"] :=
  ⟨by decide, complete_order_unknown_id_noop
    (place_order emptyDB "bob" ["Coke"]) 7 (by decide)⟩

/-- Claim C8: no operation deletes an order — after any domain operation
(mutating or read-only), every order id present before is still present. -/
theorem no_operation_deletes_orders (op : Op) (db : DB) :
    (db.orders.all fun o =>
      (applyOp op db).orders.any fun q => q.id == o.id) = true := by
  rw [List.all_eq_true]
  intro o ho
  rw [List.any_eq_true]
  cases op with
  | placeOrder c its =>
    exact ⟨o, List.mem_append_left _ ho, by simp⟩
  | completeOrder oid =>
    refine ⟨setCompleted oid o, List.mem_map_of_mem _ ho, ?_⟩
    simp [setCompleted_id]
  | autoAssign => exact ⟨o, ho, by simp⟩
  | addStaff n p g => exact ⟨o, ho, by simp⟩
  | editStaff n g => exact ⟨o, ho, by simp⟩
  | deleteStaff n => exact ⟨o, ho, by simp⟩
  | readAuthenticate n p => exact ⟨o, ho, by simp⟩
  | readStaffOrders n => exact ⟨o, ho, by simp⟩
  | readDashboard => exact ⟨o, ho, by simp⟩
  | readAllStaff => exact ⟨o, ho, by simp⟩

/-- Claim C9: `get_staff_orders` never surfaces an order with NULL
`assigned_to` — deleting all unassigned orders changes no per-staff
listing, and every row passing the SQL `assigned_to = ?` comparison has a
non-NULL `assigned_to` (SQL equality against NULL is never TRUE, which the
embedding's `sqlEq` encodes). -/
theorem unassigned_orders_invisible (db : DB) (staff_name : String) :
    get_staff_orders (removeUnassigned db) staff_name =
      get_staff_orders db staff_name ∧
    ((db.orders.filter fun o => sqlEq o.assigned_to staff_name).all fun o =>
      !(o.assigned_to == none)) = true := by
  constructor
  · unfold get_staff_orders removeUnassigned
    simp only [List.filter_filter]
    congr 1
    apply List.filter_congr
    intro o _
    cases h : o.assigned_to <;> simp [sqlEq, h]
  · rw [List.all_eq_true]
    intro o ho
    have hm := (List.mem_filter.mp ho).2
    cases h : o.assigned_to with
    | none => rw [h] at hm; simp [sqlEq] at hm
    | some s => simp [h]

/-- Claim C10: `authenticate` returns true exactly when some staff row has
the given name and the SHA-256 hex digest of the given password as its
stored password; duplicate rows raise no error and leave the boolean
unchanged (duplicating the whole table gives the same result). -/
theorem authenticate_iff_matching_row (db : DB) (name password : String) :
    (authenticate db name password = true ↔
      ∃ s ∈ db.staff, s.name = name ∧ s.password = sha256hex password) ∧
    authenticate { db with staff := db.staff ++ db.staff } name password =
      authenticate db name password := by
  constructor
  · simp [authenticate, List.any_eq_true]
  · simp [authenticate, List.any_append]

/-- Claim C5 (counterexample): with no LLM client configured,
`analyze_trends` returns the fixed string `"No AI model available."`, not
an empty result, refuting the claim that all five advisory functions
return an empty list or empty string. -/
theorem analyze_trends_absent_llm_not_empty :
    analyze_trends [] none = "No AI model available." ∧
    analyze_trends [] none ≠ "" :=
  ⟨rfl, by decide⟩

/-- Claim C5 (amended): with no LLM client configured, every advisory
function returns its fixed fallback without error — `recommend_items` and
`suggest_groups_for_staff` the empty list, `staff_dashboard_message` the
empty string, `smart_assign_staff` `None`, and `analyze_trends` the
constant message `"No AI model available."`. -/
theorem advisory_absent_llm_defaults (customer_name : String)
    (current_items : List String) (db : DB) (order_item : String)
    (available_staff : List (String × String))
    (df : List (Nat × Option String × String)) (staff_name : String)
    (orders_pending : List String) :
    recommend_items customer_name current_items none = [] ∧
    smart_assign_staff db order_item available_staff none = none ∧
    analyze_trends df none = "No AI model available." ∧
    suggest_groups_for_staff none = [] ∧
    staff_dashboard_message staff_name none orders_pending = "" :=
  ⟨rfl, rfl, rfl, rfl, rfl⟩

/-- Claim C2: after `add_staff(name, pw, groups)`, `authenticate(name, pw)`
returns true; and `authenticate(name, pw ++ "x")` returns false, given that
SHA-256 does not collide on `pw` and `pw ++ "x"` (true of every input ever
tested, unprovable in general) and that no pre-existing row already matches
`(name, sha256(pw ++ "x"))`. -/
theorem add_staff_authenticate_roundtrip (db : DB) (name pw groups : String) :
    authenticate (add_staff db name pw groups) name pw = true ∧
    (sha256hex (pw ++ "x") ≠ sha256hex pw →
     (db.staff.all fun s =>
       !(s.name == name && s.password == sha256hex (pw ++ "x"))) = true →
     authenticate (add_staff db name pw groups) name (pw ++ "x") = false) := by
  constructor
  · simp [authenticate, add_staff, List.any_append]
  · intro hne hnone
    simp only [authenticate, add_staff, List.any_append, List.any_cons,
      List.any_nil, Bool.or_eq_false_iff]
    constructor
    · rw [List.any_eq_false]
      intro s hs
      have h3 : ¬s.name = name ∨ ¬s.password = sha256hex (pw ++ "x") := by
        simpa using List.all_eq_true.mp hnone s hs
      simpa using fun hn => h3.resolve_left (not_not_intro hn)
    · simpa using fun h => hne h.symm

/-- Witness for C2 at the concrete staff record ("alice", "pw1"). -/
theorem add_staff_authenticate_roundtrip_witness :
    sha256hex ("pw1" ++ "x") ≠ sha256hex "pw1" ∧
    ((emptyDB.staff.all fun s =>
      !(s.name == "alice" && s.password == sha256hex ("pw1" ++ "x"))) = true) ∧
    authenticate (add_staff emptyDB "alice" "pw1" "Veg Pizza") "alice" "pw1" =
      true ∧
    authenticate (add_staff emptyDB "alice" "pw1" "Veg Pizza") "alice"
      ("pw1" ++ "x") = false := by
  have hne : sha256hex ("pw1" ++ "x") ≠ sha256hex "pw1" := by decide
  have hnone : (emptyDB.staff.all fun s =>
      !(s.name == "alice" && s.password == sha256hex ("pw1" ++ "x"))) = true := by
    decide
  have h := add_staff_authenticate_roundtrip emptyDB "alice" "pw1" "Veg Pizza"
  exact ⟨hne, hnone, h.1, h.2 hne hnone⟩

/-- Partition lemma for dashboard rows: when every row's status is one of
the two enumerated values, the two status filters partition the list. -/
theorem length_filter_status_partition (l : List (Nat × Option String × String))
    (h : ∀ r ∈ l, r.2.2 = "WIP" ∨ r.2.2 = "Completed") :
    l.length = (l.filter fun r => r.2.2 == "WIP").length +
      (l.filter fun r => r.2.2 == "Completed").length := by
  induction l with
  | nil => rfl
  | cons r t ih =>
    have ht := ih fun q hq => h q (List.mem_cons_of_mem r hq)
    rcases h r (List.mem_cons_self r t) with hw | hc
    · have hnc : r.2.2 ≠ "Completed" := by rw [hw]; decide
      simp only [List.filter_cons, hw]
      simp [hnc, ht]
      omega
    · have hnw : r.2.2 ≠ "WIP" := by rw [hc]; decide
      simp only [List.filter_cons, hc]
      simp [hnw, ht]
      omega

/-- Claim C6: `get_dashboard_data` yields exactly one `(id, assigned_to,
status)` row per order, and for any mixture of the two order statuses the
row count equals the WIP count plus the Completed count. -/
theorem dashboard_rows_and_counts (db : DB)
    (h : (db.orders.all fun o =>
      o.status == "WIP" || o.status == "Completed") = true) :
    get_dashboard_data db =
      db.orders.map (fun o => (o.id, o.assigned_to, o.status)) ∧
    (get_dashboard_data db).length =
      ((get_dashboard_data db).filter fun r => r.2.2 == "WIP").length +
      ((get_dashboard_data db).filter fun r => r.2.2 == "Completed").length := by
  refine ⟨rfl, ?_⟩
  apply length_filter_status_partition
  intro r hr
  unfold get_dashboard_data at hr
  obtain ⟨o, ho, rfl⟩ := List.mem_map.mp hr
  have := List.all_eq_true.mp h o ho
  simpa using this

/-- Witness for C6 on a database holding one WIP and one Completed order. -/
theorem dashboard_rows_and_counts_witness :
    ((complete_order (place_order (place_order emptyDB "bob" ["Coke"])
        "carol" ["Sandwich"]) 1).orders.all fun o =>
      o.status == "WIP" || o.status == "Completed") = true ∧
    (get_dashboard_data (complete_order (place_order (place_order emptyDB
        "bob" ["Coke"]) "carol" ["Sandwich"]) 1)).length =
      ((get_dashboard_data (complete_order (place_order (place_order emptyDB
        "bob" ["Coke"]) "carol" ["Sandwich"]) 1)).filter fun r =>
          r.2.2 == "WIP").length +
      ((get_dashboard_data (complete_order (place_order (place_order emptyDB
        "bob" ["Coke"]) "carol" ["Sandwich"]) 1)).filter fun r =>
          r.2.2 == "Completed").length :=
  ⟨by decide, (dashboard_rows_and_counts _ (by decide)).2⟩

/-- In any reachable state, every order id is below the `AUTOINCREMENT`
counter and the order ids are pairwise distinct. -/
theorem reachable_order_ids (db : DB) (h : Reachable db) :
    (∀ o ∈ db.orders, o.id < db.nextOrderId) ∧
    (db.orders.map OrderRow.id).Nodup := by
  induction h with
  | init => exact ⟨by simp [emptyDB], by simp [emptyDB]⟩
  | step op hr ih =>
    obtain ⟨hlt, hnd⟩ := ih
    cases op with
    | placeOrder c its =>
      constructor
      · intro o ho
        simp only [applyOp, place_order] at ho ⊢
        rcases List.mem_append.mp ho with hm | hm
        · exact Nat.lt_succ_of_lt (hlt o hm)
        · rw [List.mem_singleton.mp hm]
          exact Nat.lt_succ_self _
      · simp only [applyOp, place_order, List.map_append, List.map_cons,
          List.map_nil, List.nodup_append]
        refine ⟨hnd, List.nodup_singleton _, ?_⟩
        intro a ha hb
        rw [List.mem_singleton.mp hb] at ha
        obtain ⟨o, ho, hoid⟩ := List.mem_map.mp ha
        exact absurd hoid (Nat.ne_of_lt (hlt o ho))
    | completeOrder oid =>
      constructor
      · intro o ho
        simp only [applyOp, complete_order] at ho ⊢
        obtain ⟨p, hp, rfl⟩ := List.mem_map.mp ho
        rw [setCompleted_id]
        exact hlt p hp
      · simpa only [applyOp, complete_order, map_id_map_setCompleted]
          using hnd
    | autoAssign => exact ⟨hlt, hnd⟩
    | addStaff n p g => exact ⟨hlt, hnd⟩
    | editStaff n g => exact ⟨hlt, hnd⟩
    | deleteStaff n => exact ⟨hlt, hnd⟩
    | readAuthenticate n p => exact ⟨hlt, hnd⟩
    | readStaffOrders n => exact ⟨hlt, hnd⟩
    | readDashboard => exact ⟨hlt, hnd⟩
    | readAllStaff => exact ⟨hlt, hnd⟩

/-- Two rows of a table with pairwise-distinct ids that share an id are the
same row. -/
theorem eq_of_id_eq {l : List OrderRow} (hnd : (l.map OrderRow.id).Nodup)
    {o q : OrderRow} (ho : o ∈ l) (hq : q ∈ l) (h : q.id = o.id) : q = o :=
  List.inj_on_of_nodup_map hnd hq ho h

/-- In any reachable state, every order status is `'WIP'` or
`'Completed'`. -/
theorem reachable_status_enum (db : DB) (h : Reachable db) :
    (db.orders.all fun o =>
      o.status == "WIP" || o.status == "Completed") = true := by
  induction h with
  | init => rfl
  | step op hr ih =>
    rw [List.all_eq_true] at ih ⊢
    intro o ho
    cases op with
    | placeOrder c its =>
      simp only [applyOp, place_order] at ho
      rcases List.mem_append.mp ho with hm | hm
      · exact ih o hm
      · rw [List.mem_singleton.mp hm]
        simp
    | completeOrder oid =>
      simp only [applyOp, complete_order] at ho
      obtain ⟨p, hp, rfl⟩ := List.mem_map.mp ho
      by_cases hid : p.id = oid
      · simp [setCompleted, hid]
      · simpa [setCompleted, hid] using ih p hp
    | autoAssign => exact ih o ho
    | addStaff n p g => exact ih o ho
    | editStaff n g => exact ih o ho
    | deleteStaff n => exact ih o ho
    | readAuthenticate n p => exact ih o ho
    | readStaffOrders n => exact ih o ho
    | readDashboard => exact ih o ho
    | readAllStaff => exact ih o ho

/-- Once an order is `'Completed'` in a reachable state, no operation moves
any row with its id away from `'Completed'`. -/
theorem completed_stays (db : DB) (op : Op)
    (hlt : ∀ o ∈ db.orders, o.id < db.nextOrderId)
    (hnd : (db.orders.map OrderRow.id).Nodup)
    {o : OrderRow} (ho : o ∈ db.orders) (hc : o.status = "Completed")
    {q : OrderRow} (hq : q ∈ (applyOp op db).orders) (hid : q.id = o.id) :
    q.status = "Completed" := by
  cases op with
  | placeOrder c its =>
    simp only [applyOp, place_order] at hq
    rcases List.mem_append.mp hq with hm | hm
    · rw [eq_of_id_eq hnd ho hm hid]
      exact hc
    · rw [List.mem_singleton.mp hm] at hid
      exact absurd hid.symm (Nat.ne_of_lt (hlt o ho))
  | completeOrder oid =>
    simp only [applyOp, complete_order] at hq
    obtain ⟨p, hp, rfl⟩ := List.mem_map.mp hq
    rw [setCompleted_id] at hid
    rw [eq_of_id_eq hnd ho hp hid]
    unfold setCompleted
    by_cases hpo : o.id = oid <;> simp [hpo, hc]
  | autoAssign => rw [eq_of_id_eq hnd ho hq hid]; exact hc
  | addStaff n p g => rw [eq_of_id_eq hnd ho hq hid]; exact hc
  | editStaff n g => rw [eq_of_id_eq hnd ho hq hid]; exact hc
  | deleteStaff n => rw [eq_of_id_eq hnd ho hq hid]; exact hc
  | readAuthenticate n p => rw [eq_of_id_eq hnd ho hq hid]; exact hc
  | readStaffOrders n => rw [eq_of_id_eq hnd ho hq hid]; exact hc
  | readDashboard => rw [eq_of_id_eq hnd ho hq hid]; exact hc
  | readAllStaff => rw [eq_of_id_eq hnd ho hq hid]; exact hc

/-- Claim C4: in every reachable database state, each order's status is one
of exactly `'WIP'` and `'Completed'`, and no operation moves a `'Completed'`
order back to `'WIP'` (every row keeping its id stays `'Completed'`). -/
theorem order_status_enum_and_terminal (db : DB) (op : Op)
    (h : Reachable db) :
    (db.orders.all fun o =>
      o.status == "WIP" || o.status == "Completed") = true ∧
    (db.orders.all fun o => !(o.status == "Completed") ||
      ((applyOp op db).orders.all fun q =>
        !(q.id == o.id) || (q.status == "Completed"))) = true := by
  obtain ⟨hlt, hnd⟩ := reachable_order_ids db h
  refine ⟨reachable_status_enum db h, ?_⟩
  rw [List.all_eq_true]
  intro o ho
  by_cases hc : o.status = "Completed"
  · simp only [Bool.or_eq_true, List.all_eq_true]
    right
    intro q hq
    by_cases hid : q.id = o.id
    · simp [completed_stays db op hlt hnd ho hc hq hid]
    · simp [hid]
  · simp [hc]

/-- Witness for C4 on a reachable two-order state with a completion step. -/
theorem order_status_enum_and_terminal_witness :
    Reachable (applyOp (.completeOrder 1)
      (applyOp (.placeOrder "carol" ["Sandwich"])
        (applyOp (.placeOrder "bob" ["Veg Pizza", "Coke"]) emptyDB))) ∧
    (((applyOp (.completeOrder 1)
      (applyOp (.placeOrder "carol" ["Sandwich"])
        (applyOp (.placeOrder "bob" ["Veg Pizza", "Coke"]) emptyDB))).orders.all
          fun o => o.status == "WIP" || o.status == "Completed") = true ∧
     ((applyOp (.completeOrder 1)
      (applyOp (.placeOrder "carol" ["Sandwich"])
        (applyOp (.placeOrder "bob" ["Veg Pizza", "Coke"]) emptyDB))).orders.all
          fun o => !(o.status == "Completed") ||
        ((applyOp (.placeOrder "dave" ["Coke"]) (applyOp (.completeOrder 1)
          (applyOp (.placeOrder "carol" ["Sandwich"])
            (applyOp (.placeOrder "bob" ["Veg Pizza", "Coke"])
              emptyDB)))).orders.all fun q =>
          !(q.id == o.id) || (q.status == "Completed"))) = true) := by
  have hreach : Reachable (applyOp (.completeOrder 1)
      (applyOp (.placeOrder "carol" ["Sandwich"])
        (applyOp (.placeOrder "bob" ["Veg Pizza", "Coke"]) emptyDB))) :=
    Reachable.step _ (Reachable.step _ (Reachable.step _ Reachable.init))
  exact ⟨hreach, order_status_enum_and_terminal _
    (.placeOrder "dave" ["Coke"]) hreach⟩

end Workload
